import Mathlib

/-!
Verification of `os_net_config/sriov_config.py` (os-net-config SR-IOV
configuration module).

The Python source is shallowly embedded: strings are `List Char`, files are
`Option (List Char)` (`none` = the file does not exist), sysfs reads and
external look-ups are oracle parameters, and side effects of the
orchestrator are recorded as an explicit effect trace.  Machine integers are
`Int` (Python integers are unbounded, so no wrap-around modelling is
needed).  Per the specification, the external command runner is a reliable
collaborator; command invocations are therefore modelled as effects that do
not fail, except where a claim is specifically about command failure
(VF-level tuning, `set_numvfs` writes), where failure is an oracle bit.
-/

namespace OsNetConfig

/-- Python strings are modelled as lists of characters. -/
abbrev Str := List Char

/-- Whitespace as recognised by Python's `str.strip()` (ASCII subset; the
inputs of this module are ASCII). -/
def isPySpace (c : Char) : Bool :=
  c = ' ' || c = '\t' || c = '\n' || c = '\r' || c = Char.ofNat 11 || c = Char.ofNat 12

/-- Python `str.strip()`: drop leading and trailing whitespace. -/
def strip (s : Str) : Str :=
  ((s.dropWhile isPySpace).reverse.dropWhile isPySpace).reverse

/-- Python `str.splitlines()` restricted to `'\n'` separators: split at
each newline, the segment after the last newline is kept only when
nonempty.  `"a\nb" ↦ ["a","b"]`, `"a\n" ↦ ["a"]`, `"" ↦ []`.
(Python also splits on `\r`, `\v`, `\f` and some Unicode separators;
`'\n'` is the only separator this module ever writes into a rule file,
and the modelling below assumes rule files free of the exotic ones.) -/
def splitlines : Str → List Str
  | [] => []
  | c :: rest =>
    if c = '\n' then [] :: splitlines rest
    else
      match splitlines rest with
      | [] => [[c]]
      | l :: ls => (c :: l) :: ls

/-- Join lines, terminating each with a newline: the shape of every rule
file this module writes. -/
def joinNl (ls : List Str) : Str :=
  (ls.map (fun l => l ++ ['\n'])).flatten

/-- The header comment line written when a rule file is created
(`add_udev_rule`, create branch). -/
def headerLine : Str :=
  "# This file is autogenerated by os-net-config".data

/-- Result of `add_udev_rule`: the new raw content of the rule file and the
returned `trigger_udev_rule` boolean. -/
structure UdevResult where
  file : Str
  changed : Bool
  deriving DecidableEq, Repr

/-- `add_udev_rule(udev_data, udev_file, pattern=None)` from
`sriov_config.py`.  `file` is the current content of `udev_file` (`none` if
it does not exist).  `pat = none` models `pattern=None`; a supplied empty
pattern is also falsy in Python and is replaced by the stripped data.
The `reload_udev_rules()` calls are external commands (reliable runner per
the spec) and do not affect the file/return value. -/
def add_udev_rule (udev_data0 : Str) (file : Option Str) (pat : Option Str) : UdevResult :=
  let udev_data := strip udev_data0
  let pattern := match pat with
    | none => udev_data
    | some p => if p = [] then udev_data else p
  match file with
  | none =>
    -- create with header comment plus the line
    ⟨headerLine ++ '\n' :: (udev_data ++ ['\n']), true⟩
  | some file_data =>
    let udev_lines := splitlines file_data
    if pattern <:+: file_data then
      if udev_data ∈ udev_lines then
        ⟨file_data, false⟩
      else
        -- rewrite, replacing every line containing the pattern
        ⟨joinNl (udev_lines.map (fun line =>
            if pattern <:+: line then udev_data else line)), true⟩
    else
      -- append
      ⟨file_data ++ (udev_data ++ ['\n']), true⟩

/-- Number of lines of raw content `s` that contain `p` as a substring:
the reconciler's own notion of a line matching a replace-pattern. -/
def countMatch (p : Str) (s : Str) : Nat :=
  (splitlines s).countP (fun l => decide (p <:+: l))

/-! ### NumVFs controller (`get_numvfs` / `set_numvfs`) -/

/-- The distinct `SRIOVNumvfsException` raise sites of
`get_numvfs`/`set_numvfs` (distinguishable by their messages). -/
inductive NumvfsErr where
  | readErr   -- get_numvfs: unable to read sriov_numvfs
  | typeErr   -- set_numvfs: numvfs must be an integer
  | writeErr  -- set_numvfs: IOError writing sriov_numvfs
  | verifyErr -- set_numvfs: re-read count differs from the target
  deriving DecidableEq, Repr

/-- Oracle for one `set_numvfs` call: outcome of the initial
`get_numvfs` read, of the sysfs write, and of the re-read performed after
`_wait_for_vf_creation` (`none` models an `IOError` on the read). -/
structure NumvfsEnv where
  read1 : Option Int
  writeOk : Bool
  read2 : Option Int
  deriving DecidableEq, Repr

/-- A Python value passed as the `numvfs` argument: an `int`, or a
non-integer (`float`/`str`) carrying its would-be numeric value or text. -/
inductive PyVal where
  | int (n : Int)
  | float (x : Int)
  | str (s : Str)
  deriving DecidableEq, Repr

/-- `isinstance(numvfs, int)`. -/
def PyVal.isInt : PyVal → Bool
  | .int _ => true
  | _ => false

/-- Return or raise of one `set_numvfs` call. -/
inductive NumvfsOut where
  | ok (n : Int)
  | err (e : NumvfsErr)
  deriving DecidableEq, Repr

/-- Result of `set_numvfs`: the returned count or the raised exception,
plus whether a write of the `sriov_numvfs` attribute was attempted. -/
structure SetNumvfsRes where
  result : NumvfsOut
  wrote : Bool
  deriving DecidableEq, Repr

/-- `set_numvfs(ifname, numvfs)` from `sriov_config.py`.  Follows the
source order: read current count, `isinstance` check, idempotent no-op,
non-zero guard, write, `_wait_for_vf_creation` (whose outcome is folded
into the `read2` oracle), verify re-read. -/
def set_numvfs (env : NumvfsEnv) (numvfs : PyVal) : SetNumvfsRes :=
  match env.read1 with
  | none => ⟨.err .readErr, false⟩
  | some curr =>
    match numvfs with
    | .int n =>
      if n ≠ curr then
        if curr ≠ 0 then ⟨.ok curr, false⟩
        else if ¬ env.writeOk then ⟨.err .writeErr, true⟩
        else
          match env.read2 with
          | none => ⟨.err .readErr, true⟩
          | some c2 => if c2 ≠ n then ⟨.err .verifyErr, true⟩ else ⟨.ok c2, true⟩
      else ⟨.ok curr, false⟩
    | _ => ⟨.err .typeErr, false⟩

/-! ### VF creation synchronizer (`_wait_for_vf_creation`) -/

/-- `os.path.basename` for the slash-free-tail case used here. -/
def basename (s : Str) : Str :=
  (s.reverse.takeWhile (fun c => c ≠ '/')).reverse

/-- One entry of the global `vf_to_pf` map: VF interface name, device
syspath, owning PF name. -/
structure VfLink where
  vf : Str
  device : Str
  pf : Str
  deriving DecidableEq, Repr

/-- `_wait_for_vf_creation(pf_name, numvfs)` from `sriov_config.py`.
The udev event queue is modelled as a list of arrivals: `some dev` is an
event delivered within the 5-second bound carrying the device syspath,
`none` is `queue.Empty` (a full quiet period with no event), after which
the function returns.  `resolve dev` models `_get_pf_path` followed by
`os.listdir`: the list of NIC names under the event device's
`physfn/net` directory, or `none` when no PF path exists.  The `vdpa`
flag of the source only selects log messages and is omitted.  The
branches that do not insert into `vf_to_pf` (duplicate event, PF not in
the listing, unresolvable PF) only log and continue.  The source checks
`vf_count < numvfs` before each queue read; placing the check after the
head arrival returns the same map in every case (the queue itself is not
part of the result).  Recursion is structural on the arrival list, so
the loop terminates. -/
def wait_for_vf_creation (pf_name : Str) (numvfs : Int)
    (resolve : Str → Option (List Str)) :
    List (Option Str) → List VfLink → Int → List VfLink
  | [], vf_to_pf, _ => vf_to_pf
  | none :: _, vf_to_pf, _ => vf_to_pf
  | some dev :: rest, vf_to_pf, vf_count =>
    if vf_count < numvfs then
      match resolve dev with
      | some pf_nic =>
        if basename dev ∉ vf_to_pf.map VfLink.vf ∧ pf_name ∈ pf_nic then
          wait_for_vf_creation pf_name numvfs resolve rest
            (vf_to_pf ++ [⟨basename dev, dev, pf_name⟩]) (vf_count + 1)
        else
          wait_for_vf_creation pf_name numvfs resolve rest vf_to_pf vf_count
      | none =>
        wait_for_vf_creation pf_name numvfs resolve rest vf_to_pf vf_count
    else vf_to_pf

/-! ### Orchestrator (`configure_sriov_pf`) -/

/-- `device_type` of a configuration-map entry. -/
inductive DevType where
  | pf
  | vf
  deriving DecidableEq, Repr

/-- One entry of the sriov configuration map, with the fields the
orchestrator reads.  For `vf` entries `device_name` is
`item['device']['name']` (used by `is_partitioned_pf`). -/
structure PFItem where
  device_type : DevType
  name : Str
  numvfs : Int
  link_mode : Option Str
  vdpa : Bool
  device_name : Option Str
  deriving DecidableEq, Repr

/-- Which udev-rule reconciliation call site produced a result. -/
inductive RuleKind where
  | legacy
  | unmanage
  | pfName
  | vfRep
  | vdpaRep
  deriving DecidableEq, Repr

/-- Externally observable effects of one provisioning run, in order. -/
inductive Effect where
  | pfUp (name : Str)
  | ruleCall (kind : RuleKind) (res : Option Bool)
  | switchdev (name : Str)
  | numvfsWrite (name : Str)
  | unbind (pci : Str)
  | vdpaAdd (pci : Str)
  | restorecon
  | flowSteering (name : Str)
  | ifUp (name : Str)
  | bindVfs
  | trigger
  | ovsRestart
  deriving DecidableEq, Repr

/-- The `ENV\x7bNM_UNMANAGED\x7d` rule line of
`add_udev_rule_to_unmanage_vf_representors_by_nm` (a source constant). -/
def unmanageLine : Str :=
  "SUBSYSTEM==\"net\", ACTION==\"add\", ATTR\x7bphys_switch_id\x7d!=\"\", ATTR\x7bphys_port_name\x7d==\"pf*vf*\", ENV\x7bNM_UNMANAGED\x7d=\"1\"".data

/-- Per-item oracle for the orchestrator: results of the sysfs reads and
the text of the udev rule lines whose interpolated content
(PCI address, phys_switch_id, MAC addresses from the run's `vf_to_pf`
map) comes from kernel state.  `vfRepMatchFails` models `PF_FUNC_RE`
failing on the PF PCI address, which makes
`add_udev_rule_for_vf_representors` return `None` without touching the
rule file. -/
structure ItemEnv where
  statusRead : Option Int
  isMlnx : Bool
  nv : NumvfsEnv
  vfPcis : List Str
  legacyLine : Str
  legacyPat : Str
  pfRuleLine : Str
  vfRepMatchFails : Bool
  vfRepLine : Str
  vdpaRepLine : Str
  deriving Repr

/-- Mutable state threaded through the PF loop: the two rule files, the
`trigger_udev_rule` accumulator, the DPDK PCI list, and the value of the
loop-local `vdpa` variable after the most recent non-skipped pf item
(read again after the loop). -/
structure RunSt where
  rulesFile : Option Str
  legacyFile : Option Str
  trig : Bool
  dpdk : List Str
  lastVdpa : Option Bool
  deriving DecidableEq, Repr

/-- `is_partitioned_pf(dev_name)` from `sriov_config.py`: some `vf` entry
of the map names this device as its parent. -/
def is_partitioned_pf (sriov_map : List PFItem) (dev_name : Str) : Bool :=
  sriov_map.any (fun c => c.device_type = DevType.vf && c.device_name = some dev_name)

/-- The legacy string constant. -/
def legacyStr : Str := "legacy".data

/-- The switchdev string constant. -/
def switchdevStr : Str := "switchdev".data

/-- Per-VF effects of the switchdev block (source lines 339-350): driver
unbind for DPDK, vDPA device creation for VFs not already in the device
list (already-created devices only log). -/
def perVfEffects (vdpaDevices : List Str) (vdpa : Bool) (pcis : List Str) :
    List Effect :=
  pcis.filterMap (fun pci =>
    if ¬ vdpa then some (.unbind pci)
    else if pci ∉ vdpaDevices then some (.vdpaAdd pci) else none)

/-- The switchdev/vDPA block of the PF loop (source lines 336-388),
entered for a Mellanox PF in `switchdev` link mode: per-VF unbind or vDPA
creation, restorecon, the udev-rule reconciliations — the unmanage call's
return value is dropped, the PF-name, VF-representor and vDPA-representor
returns are OR-accumulated into `trigger_udev_rule` — flow steering and
the eswitch mode change for non-vDPA, DPDK PCI collection, and the
optional `if_up_interface` when running from the CLI. -/
def svBlock (vdpaDevices : List Str) (cli : Bool) (it : PFItem) (e : ItemEnv)
    (st2 : RunSt) : List Effect × RunSt :=
  let vdpa := it.vdpa
  let seg4 := perVfEffects vdpaDevices vdpa e.vfPcis
    ++ (if vdpa then [Effect.restorecon] else [])
  let r1 := add_udev_rule unmanageLine st2.rulesFile none
  let seg5 := seg4 ++ [Effect.ruleCall .unmanage (some r1.changed)]
  let r2 := add_udev_rule e.pfRuleLine (some r1.file) none
  let trig2 := r2.changed || st2.trig
  let seg6 := seg5 ++ [Effect.ruleCall .pfName (some r2.changed)]
  let r3 : Option UdevResult :=
    if e.vfRepMatchFails then none
    else some (add_udev_rule e.vfRepLine (some r2.file) none)
  let rf3 := match r3 with | some r => r.file | none => r2.file
  let c3 : Option Bool := match r3 with | some r => some r.changed | none => none
  let trig3 := (match c3 with | some b => b | none => false) || trig2
  let seg7 := seg6 ++ [Effect.ruleCall .vfRep c3]
  if ¬ vdpa then
    let st3 := {st2 with rulesFile := some rf3, trig := trig3,
                         dpdk := st2.dpdk ++ e.vfPcis}
    (seg7 ++ [Effect.flowSteering it.name, Effect.switchdev it.name]
      ++ (if cli then [Effect.ifUp it.name] else []), st3)
  else
    let r4 := add_udev_rule e.vdpaRepLine (some rf3) none
    let st3 := {st2 with rulesFile := some r4.file, trig := r4.changed || trig3}
    (seg7 ++ [Effect.ruleCall .vdpaRep (some r4.changed)]
      ++ (if cli then [Effect.ifUp it.name] else []), st3)

/-- Effects of the PF-loop body up to and including the VF-count write
(source lines 319-334): `_pf_interface_up`, the legacy-mode rule (whose
return value is dropped), the pre-numvfs switchdev change for vDPA on
Mellanox, and the `sriov_numvfs` write when `set_numvfs` attempts one. -/
def preSeg (smap : List PFItem) (it : PFItem) (e : ItemEnv) (st : RunSt) :
    List Effect :=
  [Effect.pfUp it.name]
    ++ (if it.link_mode = some legacyStr ∧ ¬ is_partitioned_pf smap it.name then
          [Effect.ruleCall .legacy
            (some (add_udev_rule e.legacyLine st.legacyFile (some e.legacyPat)).changed)]
        else [])
    ++ (if it.vdpa ∧ e.isMlnx then [Effect.switchdev it.name] else [])
    ++ (if (set_numvfs e.nv (.int it.numvfs)).wrote
        then [Effect.numvfsWrite it.name] else [])

/-- State after the same prefix of the loop body: the legacy rule file
may have been rewritten, and the loop-local `vdpa` variable is
refreshed. -/
def preSt (smap : List PFItem) (it : PFItem) (e : ItemEnv) (st : RunSt) : RunSt :=
  if it.link_mode = some legacyStr ∧ ¬ is_partitioned_pf smap it.name then
    {st with
      legacyFile :=
        some (add_udev_rule e.legacyLine st.legacyFile (some e.legacyPat)).file,
      lastVdpa := some it.vdpa}
  else {st with lastVdpa := some it.vdpa}

/-- The body of the PF loop of `configure_sriov_pf` for one map item:
returns the emitted effect segment and either the updated state or the
propagated `SRIOVNumvfsException`.  Commands issued through the external
runner (`ip`, `devlink`, `ethtool`, `vdpa`, `udevadm`, restorecon) are
modelled as effects of a reliable collaborator per the spec; the failures
the source itself produces from modelled state (`get_numvfs`,
`set_numvfs`) abort the run. -/
def processItem (smap : List PFItem) (vdpaDevices : List Str) (cli : Bool)
    (it : PFItem) (e : ItemEnv) (st : RunSt) : List Effect × Except NumvfsErr RunSt :=
  if it.device_type ≠ DevType.pf then ([], .ok st) else
  match e.statusRead with
  | none => ([], .error .readErr)
  | some cur =>
  if it.numvfs = cur then ([], .ok st) else
  match (set_numvfs e.nv (.int it.numvfs)).result with
  | .err er => (preSeg smap it e st, .error er)
  | .ok _ =>
    if it.link_mode = some switchdevStr ∧ e.isMlnx then
      (preSeg smap it e st
          ++ (svBlock vdpaDevices cli it e (preSt smap it e st)).1,
        .ok (svBlock vdpaDevices cli it e (preSt smap it e st)).2)
    else (preSeg smap it e st, .ok (preSt smap it e st))

/-- Run-level parameters: the vDPA device list fetched at the start of
the run, the `execution_from_cli` / `restart_openvswitch` flags, and the
initial contents of the two udev rule files. -/
structure RunEnv where
  vdpaDevices : List Str
  cli : Bool
  restartOvs : Bool
  rulesFile0 : Option Str
  legacyFile0 : Option Str
  deriving Repr

/-- The PF loop of `configure_sriov_pf`: iterate the map items in order,
stopping at the first propagated exception. -/
def runItems (smap : List PFItem) (env : RunEnv) :
    List (PFItem × ItemEnv) → RunSt → List Effect × Except NumvfsErr RunSt
  | [], st => ([], .ok st)
  | (it, e) :: rest, st =>
    let (seg, r) := processItem smap env.vdpaDevices env.cli it e st
    match r with
    | .error er => (seg, .error er)
    | .ok st' =>
      let (tr, r') := runItems smap env rest st'
      (seg ++ tr, r')

/-- Everything after the PF loop, in source order: the DPDK bind step
(guarded by the leaked loop-local `vdpa` of the last processed item), the
single batched `trigger_udev_rules()` call, and the optional
openvswitch restart. -/
def postSeg (env : RunEnv) (st : RunSt) : List Effect :=
  (if st.dpdk ≠ [] ∧ st.lastVdpa = some false then [Effect.bindVfs] else [])
    ++ (if st.trig then [Effect.trigger] else [])
    ++ (if env.restartOvs then [Effect.ovsRestart] else [])

/-- `configure_sriov_pf(execution_from_cli, restart_openvswitch)` from
`sriov_config.py`: the full run over a configuration map, yielding the
effect trace and the final state, or the trace up to a propagated
exception. -/
def configure_sriov_pf (env : RunEnv) (cfg : List (PFItem × ItemEnv)) :
    List Effect × Except NumvfsErr RunSt :=
  match runItems (cfg.map Prod.fst) env cfg
      ⟨env.rulesFile0, env.legacyFile0, false, [], none⟩ with
  | (tr, .error er) => (tr, .error er)
  | (tr, .ok st) => (tr ++ postSeg env st, .ok st)

/-! ### VF-level tuning (`configure_sriov_vf`) -/

/-- One `vf` entry of the configuration map with its tuning fields
(absent field = leave kernel default). -/
structure VFTuning where
  device_type : DevType
  macaddr : Option Str
  vlan_id : Option Int
  qos : Option Int
  max_tx_rate : Option Int
  min_tx_rate : Option Int
  spoofcheck : Option Str
  state : Option Str
  trust : Option Str
  promisc : Option Str
  driver : Option Str
  deriving Repr

/-- Success of each `ip link set ... vf ...` command the tuning loop may
issue for one item (the command runner retries internally; `false` means
it still failed, i.e. `ProcessExecutionError`). -/
structure VFCmdEnv where
  macOk : Bool
  vlanOk : Bool
  maxOk : Bool
  minOk : Bool
  spoofOk : Bool
  stateOk : Bool
  trustOk : Bool
  promiscOk : Bool
  deriving Repr

/-- Whether the tuning loop body raised. -/
inductive VFOut where
  | ok
  | raised
  deriving DecidableEq, Repr

/-- The body of `configure_sriov_vf` for one map item.  `raise_error` is
initialised to `True` (twice, lines 690 and 697 of the source), set to
`False` by the `max_tx_rate == 0` branch, and NOT reset before the
`min_tx_rate` command: the value carried into the min command is exactly
the source's.  The `qos` field rides on the vlan command.  The `driver`
branch calls the external `common.set_driverctl_override`. -/
def configure_sriov_vf_item (it : VFTuning) (e : VFCmdEnv) : VFOut :=
  if it.device_type ≠ DevType.vf then .ok else
  if it.macaddr.isSome ∧ ¬ e.macOk then .raised else
  if it.vlan_id.isSome ∧ ¬ e.vlanOk then .raised else
  let raise_error : Bool := true
  let raise_error : Bool := match it.max_tx_rate with
    | some r => if r = 0 then false else raise_error
    | none => raise_error
  if it.max_tx_rate.isSome ∧ ¬ e.maxOk ∧ raise_error = true then .raised else
  let raise_error : Bool := match it.min_tx_rate with
    | some r => if r = 0 then false else raise_error
    | none => raise_error
  if it.min_tx_rate.isSome ∧ ¬ e.minOk ∧ raise_error = true then .raised else
  if it.spoofcheck.isSome ∧ ¬ e.spoofOk then .raised else
  if it.state.isSome ∧ ¬ e.stateOk then .raised else
  if it.trust.isSome ∧ ¬ e.trustOk then .raised else
  if it.promisc.isSome ∧ ¬ e.promiscOk then .raised else
  .ok

/-- `configure_sriov_vf()`: apply VF-level tuning to every map entry,
aborting at the first raised command failure. -/
def configure_sriov_vf : List (VFTuning × VFCmdEnv) → VFOut
  | [] => .ok
  | (it, e) :: rest =>
    match configure_sriov_vf_item it e with
    | .raised => .raised
    | .ok => configure_sriov_vf rest

/-- The reconciliation results whose `true` value the orchestrator
actually accumulates into `trigger_udev_rule`: the PF-name rule, the
VF-representor rule and the vDPA-representor rule (the legacy and
NM-unmanage call results are dropped by the source). -/
def isTrackedTrue : Effect → Bool
  | .ruleCall .pfName (some true) => true
  | .ruleCall .vfRep (some true) => true
  | .ruleCall .vdpaRep (some true) => true
  | _ => false

/-! ### Concrete instances used by counterexamples and witnesses -/

/-- A rule line unrelated to the pattern below. -/
def cexLine : Str := "abc".data

/-- A pattern that occurs neither in `cexLine` nor in the header. -/
def cexPat : Str := "xyz".data

/-- A well-formed rule line for the happy-path witnesses. -/
def wLine : Str := "K x1".data

/-- A replace-pattern occurring in `wLine` but not in the header. -/
def wPat : Str := "K".data

/-- A rule file already containing `wLine` verbatim. -/
def wFd : Str := "K x1\n".data

/-- A rule file with two distinct lines both matching the pattern `x`. -/
def dupFd : Str := "x1\nx2\n".data

/-- A replacement line matching the pattern `x`. -/
def dupLine : Str := "xy".data

/-- The pattern shared by both lines of `dupFd`. -/
def dupPat : Str := "x".data

/-- Two-line udev data, as the vDPA representor path produces. -/
def mlData : Str := "a1\na2".data

/-- A rule file already containing both lines of `mlData` verbatim. -/
def mlFd : Str := "# h\na1\na2\n".data

/-- Run environment with no vDPA devices, no CLI flag, no restart, and no
pre-existing rule files. -/
def plainRunEnv : RunEnv := ⟨[], false, false, none, none⟩

/-- A legacy-mode PF descriptor (`p1`, 2 VFs). -/
def legacyItem : PFItem := ⟨.pf, "p1".data, 2, some legacyStr, false, none⟩

/-- Oracle for `legacyItem`: current count 0, write succeeds and
verifies, non-Mellanox; the legacy rule file does not exist, so its
reconciliation returns changed=true. -/
def legacyItemEnv : ItemEnv :=
  ⟨some 0, false, ⟨some 0, true, some 2⟩, [], "L1".data, "L".data,
    [], false, [], []⟩

/-- A switchdev-mode Mellanox PF descriptor (`e1`, 2 VFs, non-vDPA). -/
def svItem : PFItem := ⟨.pf, "e1".data, 2, some switchdevStr, false, none⟩

/-- Oracle for `svItem`: count 0, successful verified write, Mellanox,
one VF PCI, fresh rule lines. -/
def svItemEnv : ItemEnv :=
  ⟨some 0, true, ⟨some 0, true, some 2⟩, ["a".data], [], [],
    "PF".data, false, "VR".data, []⟩

/-- A vDPA switchdev Mellanox PF descriptor (`v1`). -/
def vdpaItem : PFItem := ⟨.pf, "v1".data, 2, some switchdevStr, true, none⟩

/-- Oracle for `vdpaItem`. -/
def vdpaItemEnv : ItemEnv :=
  ⟨some 0, true, ⟨some 0, true, some 2⟩, ["b".data], [], [],
    "PF".data, false, "VR".data, "DR".data⟩

/-! ## Theorems -/

/-- C2: after a successful write of the VF-count attribute (reached with
current count 0 and a nonzero integer target), `set_numvfs` waits for VF
creation and re-reads the count; it raises `SRIOVNumvfsException` iff the
re-read value differs from the requested target and otherwise returns the
target — the re-read kernel value decides success. -/
theorem claim_C2_reread_decides (env : NumvfsEnv) (n v : Int)
    (hr1 : env.read1 = some 0) (hn : n ≠ 0) (hw : env.writeOk = true)
    (hr2 : env.read2 = some v) :
    set_numvfs env (.int n) =
      ⟨if v = n then .ok n else .err .verifyErr, true⟩ := by
  unfold set_numvfs
  rw [hr1, hr2]
  by_cases hvn : v = n <;> simp [hn, hw, hvn]

/-- Witness for C2 at a concrete input. -/
theorem claim_C2_reread_decides_witness :
    set_numvfs ⟨some 0, true, some 3⟩ (.int 3) = ⟨.ok 3, true⟩ ∧
    set_numvfs ⟨some 0, true, some 2⟩ (.int 3) = ⟨.err .verifyErr, true⟩ := by
  have h1 := claim_C2_reread_decides ⟨some 0, true, some 3⟩ 3 3 rfl (by decide) rfl rfl
  have h2 := claim_C2_reread_decides ⟨some 0, true, some 2⟩ 3 2 rfl (by decide) rfl rfl
  exact ⟨by simpa using h1, by simpa using h2⟩

/-- C3: the two no-op branches of `set_numvfs` never write the VF-count
attribute: if the current count equals the integer target it returns that
count without a write, and if the current count is non-zero and differs
from the target it returns the current count without attempting the write
and without raising. -/
theorem claim_C3_noop_branches (env : NumvfsEnv) (n curr : Int)
    (h : env.read1 = some curr) :
    (curr = n → set_numvfs env (.int n) = ⟨.ok curr, false⟩) ∧
    (curr ≠ 0 → curr ≠ n → set_numvfs env (.int n) = ⟨.ok curr, false⟩) := by
  constructor
  · intro he
    unfold set_numvfs
    rw [h]
    simp [he]
  · intro h0 hne
    have hne' : n ≠ curr := fun hh => hne hh.symm
    unfold set_numvfs
    rw [h]
    simp [h0, hne']

/-- Witness for C3 at concrete inputs: equal target, and non-zero
divergent current count. -/
theorem claim_C3_noop_branches_witness :
    set_numvfs ⟨some 5, true, none⟩ (.int 5) = ⟨.ok 5, false⟩ ∧
    set_numvfs ⟨some 3, true, none⟩ (.int 7) = ⟨.ok 3, false⟩ :=
  ⟨(claim_C3_noop_branches ⟨some 5, true, none⟩ 5 5 rfl).1 rfl,
   (claim_C3_noop_branches ⟨some 3, true, none⟩ 7 3 rfl).2 (by decide) (by decide)⟩

/-- C10: a non-integer `numvfs` argument makes `set_numvfs` raise
`SRIOVNumvfsException` without ever writing the attribute, whatever the
(possibly equal) current count is; and the type check sits after the
initial read (an unreadable count raises the read error first). -/
theorem claim_C10_type_check (env : NumvfsEnv) (v : PyVal)
    (hv : v.isInt = false) :
    (∀ curr : Int, env.read1 = some curr →
        set_numvfs env v = ⟨.err .typeErr, false⟩) ∧
    (env.read1 = none → set_numvfs env v = ⟨.err .readErr, false⟩) := by
  constructor
  · intro curr hr
    unfold set_numvfs
    rw [hr]
    cases v with
    | int n => simp [PyVal.isInt] at hv
    | float x => rfl
    | str s => rfl
  · intro hr
    unfold set_numvfs
    rw [hr]

/-- Witness for C10: a float whose value equals the current count still
raises the type error with no write. -/
theorem claim_C10_type_check_witness :
    set_numvfs ⟨some 2, true, some 2⟩ (.float 2) = ⟨.err .typeErr, false⟩ :=
  (claim_C10_type_check ⟨some 2, true, some 2⟩ (.float 2) rfl).1 2 rfl

/-- C8 (code bug): a VF descriptor with `max_tx_rate = 0` and
`min_tx_rate = 5` whose min-rate command fails does NOT raise — the
`raise_error = False` set by the `max_tx_rate == 0` branch is still in
force for the min-rate command — although the claim (and the spec's
"ignore failure in that specific case only") requires a failing nonzero
rate command to raise, as it does when `min_tx_rate = 5` stands alone. -/
theorem claim_C8_zero_rate_flag_leak :
    configure_sriov_vf_item
        ⟨.vf, none, none, none, some 0, some 5, none, none, none, none, none⟩
        ⟨true, true, true, false, true, true, true, true⟩ = .ok ∧
    configure_sriov_vf_item
        ⟨.vf, none, none, none, none, some 5, none, none, none, none, none⟩
        ⟨true, true, true, false, true, true, true, true⟩ = .raised ∧
    configure_sriov_vf_item
        ⟨.vf, none, none, none, some 0, none, none, none, none, none, none⟩
        ⟨true, true, false, true, true, true, true, true⟩ = .ok := by
  decide

/-- The link the synchronizer records for a device syspath. -/
def mkLink (pf : Str) (d : Str) : VfLink := ⟨basename d, d, pf⟩

/-- Processing lemma for the synchronizer: a block of well-formed events
with pairwise distinct, fresh VF names is consumed one by one, each
recording one link, as long as the target is not yet reached; reaching
the target stops the loop. -/
theorem wait_processes_block (pf : Str) (n : Int)
    (resolve : Str → Option (List Str)) (es : List Str)
    (rest : List (Option Str)) (m : List VfLink) (c : Int)
    (hwf : ∀ d ∈ es, ∃ nic, resolve d = some nic ∧ pf ∈ nic)
    (hnd : (es.map basename).Nodup)
    (hdis : ∀ d ∈ es, basename d ∉ m.map VfLink.vf)
    (hle : c + es.length ≤ n) :
    wait_for_vf_creation pf n resolve (es.map some ++ rest) m c =
      if c + es.length = n then m ++ es.map (mkLink pf)
      else wait_for_vf_creation pf n resolve rest (m ++ es.map (mkLink pf)) (c + es.length) := by
  induction es generalizing m c with
  | nil =>
    simp only [List.map_nil, List.nil_append, List.length_nil, List.append_nil,
      Nat.cast_zero, add_zero]
    by_cases hc : c = n
    · rw [if_pos hc]
      subst hc
      cases rest with
      | nil => rfl
      | cons a t =>
        cases a with
        | none => rfl
        | some dev => simp [wait_for_vf_creation]
    · rw [if_neg hc]
  | cons d es ih =>
    have hclt : c < n := by
      have := hle
      simp only [List.length_cons] at this
      omega
    obtain ⟨nic, hres, hmem⟩ := hwf d (by simp)
    have hfresh : basename d ∉ m.map VfLink.vf := hdis d (by simp)
    have hnds : basename d ∉ es.map basename ∧ (es.map basename).Nodup := by
      rw [List.map_cons, List.nodup_cons] at hnd
      exact hnd
    rw [List.map_cons, List.cons_append, wait_for_vf_creation]
    rw [if_pos hclt]
    simp only [hres]
    rw [if_pos ⟨hfresh, hmem⟩]
    have hdis' : ∀ d' ∈ es, basename d' ∉ (m ++ [mkLink pf d]).map VfLink.vf := by
      intro d' hd'
      simp only [List.map_append, List.mem_append, List.map_cons, List.map_nil]
      rintro (h1 | h2)
      · exact hdis d' (by simp [hd']) h1
      · have hne : basename d' ≠ basename d := fun hh =>
          hnds.1 (hh ▸ List.mem_map_of_mem basename hd')
        simp [mkLink] at h2
        exact hne h2
    have hle' : (c + 1) + es.length ≤ n := by
      have := hle
      simp only [List.length_cons] at this
      omega
    have hrec := ih (m ++ [mkLink pf d]) (c + 1)
      (fun d' hd' => hwf d' (by simp [hd'])) hnds.2 hdis' hle'
    have hml : (⟨basename d, d, pf⟩ : VfLink) = mkLink pf d := rfl
    rw [hml, hrec]
    have harith : (c + 1) + (es.length : Int) = c + ((d :: es).length : Int) := by
      simp only [List.length_cons]
      push_cast
      ring
    rw [harith]
    have hmaps : (m ++ [mkLink pf d]) ++ es.map (mkLink pf) =
        m ++ (d :: es).map (mkLink pf) := by
      simp
    rw [hmaps]

/-- C6: the VF-creation synchronizer terminates in both regimes.  With a
target of `n` VFs and a channel delivering exactly `n` well-formed,
distinct events resolving to the correct PF, it returns having recorded
the `n` VF-to-PF links; with fewer than `n` such events followed by a
full quiet period (modelled by the `none` arrival, i.e. `queue.Empty`
after the 5-second bound), it returns early having recorded only the
events seen, without raising. -/
theorem claim_C6_synchronizer_terminates (pf : Str) (n : Int)
    (resolve : Str → Option (List Str)) (es1 es2 : List Str)
    (hlen1 : (es1.length : Int) = n)
    (hwf1 : ∀ d ∈ es1, ∃ nic, resolve d = some nic ∧ pf ∈ nic)
    (hnd1 : (es1.map basename).Nodup)
    (hlen2 : (es2.length : Int) < n)
    (hwf2 : ∀ d ∈ es2, ∃ nic, resolve d = some nic ∧ pf ∈ nic)
    (hnd2 : (es2.map basename).Nodup) :
    wait_for_vf_creation pf n resolve (es1.map some) [] 0 = es1.map (mkLink pf) ∧
    wait_for_vf_creation pf n resolve (es2.map some ++ [none]) [] 0 = es2.map (mkLink pf) := by
  constructor
  · have := wait_processes_block pf n resolve es1 [] [] 0 hwf1 hnd1
      (by simp) (by omega)
    rw [List.append_nil] at this
    rw [this, if_pos (by omega)]
    simp
  · have := wait_processes_block pf n resolve es2 [none] [] 0 hwf2 hnd2
      (by simp) (by omega)
    rw [this, if_neg (by omega)]
    rw [wait_for_vf_creation]
    simp

/-- Witness for C6: target 2 with two distinct events records both links;
target 4 with two events then a quiet period records the two. -/
theorem claim_C6_synchronizer_terminates_witness :
    wait_for_vf_creation (['p'] : Str) 2 (fun _ => some [['p']])
        [some ['a'], some ['b']] [] 0 =
      [⟨['a'], ['a'], ['p']⟩, ⟨['b'], ['b'], ['p']⟩] ∧
    wait_for_vf_creation (['p'] : Str) 4 (fun _ => some [['p']])
        [some ['a'], some ['b'], none] [] 0 =
      [⟨['a'], ['a'], ['p']⟩, ⟨['b'], ['b'], ['p']⟩] := by
  have h2 := claim_C6_synchronizer_terminates ['p'] 2 (fun _ => some [['p']])
    [['a'], ['b']] [] (by decide)
    (fun d _ => ⟨[['p']], rfl, by decide⟩) (by decide)
    (by decide) (fun d hd => by simp at hd) (by decide)
  have h4 := claim_C6_synchronizer_terminates ['p'] 4 (fun _ => some [['p']])
    [['a'], ['b'], ['c'], ['d']] [['a'], ['b']] (by decide)
    (fun d _ => ⟨[['p']], rfl, by decide⟩) (by decide)
    (by decide) (fun d _ => ⟨[['p']], rfl, by decide⟩) (by decide)
  refine ⟨?_, ?_⟩
  · have := h2.1
    simpa [mkLink, basename] using this
  · have := h4.2
    simpa [mkLink, basename] using this

/-! ### Line/file toolkit -/

/-- No line produced by `splitlines` contains a newline. -/
theorem splitlines_no_newline (s : Str) : ∀ l ∈ splitlines s, '\n' ∉ l := by
  induction s with
  | nil => simp [splitlines]
  | cons c rest ih =>
    rw [splitlines]
    by_cases hc : c = '\n'
    · rw [if_pos hc]
      intro l hl
      rcases List.mem_cons.mp hl with h | h
      · subst h; simp
      · exact ih l h
    · rw [if_neg hc]
      cases hsp : splitlines rest with
      | nil =>
        intro l hl
        rcases List.mem_cons.mp hl with h | h
        · subst h; simpa using (Ne.symm hc)
        · simp at h
      | cons l0 ls =>
        intro l hl
        rcases List.mem_cons.mp hl with h | h
        · subst h
          intro hmem
          rcases List.mem_cons.mp hmem with h2 | h2
          · exact hc h2.symm
          · exact ih l0 (hsp ▸ List.mem_cons_self l0 ls) h2
        · exact ih l (hsp ▸ List.mem_cons_of_mem l0 h)

/-- `splitlines` yields the empty list exactly on the empty string. -/
theorem splitlines_eq_nil_iff (s : Str) : splitlines s = [] ↔ s = [] := by
  constructor
  · intro h
    cases s with
    | nil => rfl
    | cons c rest =>
      rw [splitlines] at h
      by_cases hc : c = '\n'
      · rw [if_pos hc] at h; simp at h
      · rw [if_neg hc] at h
        cases hsp : splitlines rest with
        | nil => rw [hsp] at h; simp at h
        | cons l0 ls => rw [hsp] at h; simp at h
  · rintro rfl; rfl

/-- A newline-free string has at most one line. -/
theorem splitlines_of_no_newline (s : Str) (h : '\n' ∉ s) :
    splitlines s = [] ∨ splitlines s = [s] := by
  induction s with
  | nil => left; rfl
  | cons c rest ih =>
    have hc : c ≠ '\n' := fun hh => h (hh ▸ List.mem_cons_self c rest)
    have hrest : '\n' ∉ rest := fun hh => h (List.mem_cons_of_mem c hh)
    right
    rw [splitlines, if_neg hc]
    rcases ih hrest with h0 | h1
    · rw [h0]
      have : rest = [] := (splitlines_eq_nil_iff rest).mp h0
      rw [this]
    · rw [h1]

/-- Prepending a newline-terminated, newline-free line adds exactly that
line in front of the split. -/
theorem splitlines_line_append (l s : Str) (h : '\n' ∉ l) :
    splitlines (l ++ '\n' :: s) = l :: splitlines s := by
  induction l with
  | nil =>
    rw [List.nil_append, splitlines, if_pos rfl]
  | cons c t ih =>
    have hc : c ≠ '\n' := fun hh => h (hh ▸ List.mem_cons_self c t)
    have ht : '\n' ∉ t := fun hh => h (List.mem_cons_of_mem c hh)
    rw [List.cons_append, splitlines, if_neg hc, ih ht]

/-- `joinNl` on a cons. -/
theorem joinNl_cons (l : Str) (ls : List Str) :
    joinNl (l :: ls) = l ++ '\n' :: joinNl ls := by
  simp [joinNl]

/-- `joinNl` distributes over append. -/
theorem joinNl_append (xs ys : List Str) :
    joinNl (xs ++ ys) = joinNl xs ++ joinNl ys := by
  simp [joinNl]

/-- `splitlines` inverts `joinNl` on newline-free lines. -/
theorem splitlines_joinNl (ls : List Str) (h : ∀ l ∈ ls, '\n' ∉ l) :
    splitlines (joinNl ls) = ls := by
  induction ls with
  | nil => rfl
  | cons l ls ih =>
    rw [joinNl_cons, splitlines_line_append l _ (h l (List.mem_cons_self l ls)),
      ih (fun x hx => h x (List.mem_cons_of_mem l hx))]

/-- Every line of a newline-joined list is a substring of the join. -/
theorem infix_joinNl_of_mem (x : Str) (ls : List Str) (h : x ∈ ls) :
    x <:+: joinNl ls := by
  induction ls with
  | nil => simp at h
  | cons l ls ih =>
    rw [joinNl_cons]
    rcases List.mem_cons.mp h with h1 | h2
    · subst h1
      exact (List.prefix_append x ('\n' :: joinNl ls)).isInfix
    · have hsuf : joinNl ls <:+ l ++ '\n' :: joinNl ls := by
        have := List.suffix_append (l ++ ['\n']) (joinNl ls)
        simpa using this
      exact (ih h2).trans hsuf.isInfix

/-- A newline-free prefix of `l ++ '\n' :: t` is a prefix of `l`. -/
theorem prefix_line_of_no_newline (q l t : Str) (hq : '\n' ∉ q)
    (h : q <+: l ++ '\n' :: t) : q <+: l := by
  induction q generalizing l with
  | nil => exact List.nil_prefix
  | cons a q' ih =>
    have ha : a ≠ '\n' := fun hh => hq (hh ▸ List.mem_cons_self a q')
    have hq' : '\n' ∉ q' := fun hh => hq (List.mem_cons_of_mem a hh)
    cases l with
    | nil =>
      rw [List.nil_append] at h
      have := (List.cons_prefix_cons.mp h).1
      exact absurd this ha
    | cons b l' =>
      rw [List.cons_append] at h
      obtain ⟨hab, htail⟩ := List.cons_prefix_cons.mp h
      exact List.cons_prefix_cons.mpr ⟨hab, ih l' hq' htail⟩

/-- A newline-free substring of `l ++ '\n' :: t` lies in `l` or in `t`. -/
theorem infix_line_split (p l t : Str) (hp : '\n' ∉ p)
    (h : p <:+: l ++ '\n' :: t) : p <:+: l ∨ p <:+: t := by
  induction l with
  | nil =>
    rw [List.nil_append] at h
    rcases List.infix_cons_iff.mp h with hpre | hinf
    · cases p with
      | nil => left; exact List.nil_infix
      | cons a p' =>
        have := (List.cons_prefix_cons.mp hpre).1
        exact absurd this (fun hh => hp (hh ▸ List.mem_cons_self a p'))
    · right; exact hinf
  | cons b l' ih =>
    rw [List.cons_append] at h
    rcases List.infix_cons_iff.mp h with hpre | hinf
    · left
      exact (prefix_line_of_no_newline p (b :: l') t hp
        (by rwa [List.cons_append])).isInfix
    · rcases ih hinf with h1 | h2
      · left; exact List.infix_cons h1
      · right; exact h2

/-- A nonempty, newline-free substring of a newline-joined list is a
substring of one of its lines. -/
theorem exists_line_of_infix (p : Str) (ls : List Str) (hp : '\n' ∉ p)
    (hne : p ≠ []) (h : p <:+: joinNl ls) : ∃ l ∈ ls, p <:+: l := by
  induction ls with
  | nil =>
    exact absurd (List.infix_nil.mp h) hne
  | cons l ls ih =>
    rw [joinNl_cons] at h
    rcases infix_line_split p l (joinNl ls) hp h with h1 | h2
    · exact ⟨l, List.mem_cons_self l ls, h1⟩
    · obtain ⟨l', hl', hinf⟩ := ih h2
      exact ⟨l', List.mem_cons_of_mem l hl', hinf⟩

/-! ### Reconciler path lemmas -/

/-- Create path of `add_udev_rule`: missing file is created with the
header and the stripped line. -/
theorem add_udev_rule_create (d p : Str) :
    add_udev_rule d none (some p) = ⟨joinNl [headerLine, strip d], true⟩ := by
  simp [add_udev_rule, joinNl]

/-- Converged path: pattern present and the stripped line present
verbatim — no write, returns false. -/
theorem add_udev_rule_converged (d p fd : Str) (hp : p ≠ [])
    (h1 : p <:+: fd) (h2 : strip d ∈ splitlines fd) :
    add_udev_rule d (some fd) (some p) = ⟨fd, false⟩ := by
  simp [add_udev_rule, hp, h1, h2]

/-- Replace path: pattern present but the line absent — every matching
line is rewritten to the stripped line. -/
theorem add_udev_rule_replace (d p fd : Str) (hp : p ≠ [])
    (h1 : p <:+: fd) (h2 : strip d ∉ splitlines fd) :
    add_udev_rule d (some fd) (some p) =
      ⟨joinNl ((splitlines fd).map (fun line =>
        if p <:+: line then strip d else line)), true⟩ := by
  simp [add_udev_rule, hp, h1, h2]

/-- Append path: pattern absent from the raw content — the stripped line
is appended. -/
theorem add_udev_rule_append (d p fd : Str) (hp : p ≠ [])
    (h1 : ¬ p <:+: fd) :
    add_udev_rule d (some fd) (some p) = ⟨fd ++ (strip d ++ ['\n']), true⟩ := by
  simp [add_udev_rule, hp, h1]

/-- Rewriting every matching line to a line that itself matches preserves
the number of matching lines. -/
theorem countP_replace (p d : Str) (ls : List Str) (hd : p <:+: d) :
    (ls.map (fun l => if p <:+: l then d else l)).countP
        (fun l => decide (p <:+: l)) =
      ls.countP (fun l => decide (p <:+: l)) := by
  induction ls with
  | nil => rfl
  | cons l ls ih =>
    by_cases hl : p <:+: l
    · simp only [List.map_cons, if_pos hl]
      rw [List.countP_cons_of_pos _ _ (by simpa using hd),
        List.countP_cons_of_pos _ _ (by simpa using hl), ih]
    · simp only [List.map_cons, if_neg hl]
      rw [List.countP_cons_of_neg _ _ (by simpa using hl),
        List.countP_cons_of_neg _ _ (by simpa using hl), ih]

/-- Normal-form behaviour of one `add_udev_rule` call on a well-formed
input: single-line nonempty data, nonempty newline-free pattern occurring
in the data but not in the header, newline-terminated prior file with at
most one matching line.  The resulting file has exactly one line matching
the pattern, is newline-terminated, and contains the stripped data as a
line. -/
theorem add_udev_rule_normalized (d p : Str) (file : Option Str)
    (hl1 : '\n' ∉ strip d)
    (hp0 : p ≠ []) (hp1 : '\n' ∉ p) (hpl : p <:+: strip d)
    (hph : ¬ p <:+: headerLine)
    (hfile : ∀ fd, file = some fd →
      fd = joinNl (splitlines fd) ∧ countMatch p fd ≤ 1) :
    countMatch p (add_udev_rule d file (some p)).file = 1 ∧
    (add_udev_rule d file (some p)).file =
      joinNl (splitlines (add_udev_rule d file (some p)).file) ∧
    strip d ∈ splitlines (add_udev_rule d file (some p)).file := by
  have hhd : ('\n' : Char) ∉ headerLine := by decide
  cases file with
  | none =>
    rw [add_udev_rule_create]
    have hlines : ∀ l ∈ [headerLine, strip d], '\n' ∉ l := by
      intro l hl
      rcases List.mem_cons.mp hl with h | h
      · subst h; exact hhd
      · simp at h; subst h; exact hl1
    have hsp := splitlines_joinNl [headerLine, strip d] hlines
    refine ⟨?_, ?_, ?_⟩
    · rw [countMatch, hsp]
      rw [List.countP_cons_of_neg _ _ (by simpa using hph),
        List.countP_cons_of_pos _ _ (by simpa using hpl)]
      rfl
    · rw [hsp]
    · rw [hsp]; simp
  | some fd =>
    obtain ⟨hid, hcnt⟩ := hfile fd rfl
    have hnl : ∀ l ∈ splitlines fd, '\n' ∉ l := splitlines_no_newline fd
    by_cases hinf : p <:+: fd
    · by_cases hconv : strip d ∈ splitlines fd
      · rw [add_udev_rule_converged d p fd hp0 hinf hconv]
        have hpos : 0 < countMatch p fd := by
          rw [countMatch]
          exact List.countP_pos_iff.mpr ⟨strip d, hconv, by simpa using hpl⟩
        refine ⟨?_, hid, hconv⟩
        show countMatch p fd = 1
        omega
      · rw [add_udev_rule_replace d p fd hp0 hinf hconv]
        have hmapnl : ∀ l ∈ (splitlines fd).map
            (fun line => if p <:+: line then strip d else line), '\n' ∉ l := by
          intro l hl
          obtain ⟨x, hx, hfx⟩ := List.mem_map.mp hl
          by_cases hpx : p <:+: x
          · rw [if_pos hpx] at hfx; subst hfx; exact hl1
          · rw [if_neg hpx] at hfx; subst hfx; exact hnl x hx
        have hsp := splitlines_joinNl _ hmapnl
        have hone : (splitlines fd).countP (fun l => decide (p <:+: l)) = 1 := by
          have hpos : 0 < (splitlines fd).countP (fun l => decide (p <:+: l)) := by
            have hinf' : p <:+: joinNl (splitlines fd) := hid ▸ hinf
            obtain ⟨l, hl, hpl'⟩ := exists_line_of_infix p (splitlines fd) hp1 hp0 hinf'
            exact List.countP_pos_iff.mpr ⟨l, hl, by simpa using hpl'⟩
          have : countMatch p fd = (splitlines fd).countP (fun l => decide (p <:+: l)) := rfl
          omega
        refine ⟨?_, ?_, ?_⟩
        · rw [countMatch, hsp, countP_replace p (strip d) _ hpl, hone]
        · rw [hsp]
        · rw [hsp]
          have hinf' : p <:+: joinNl (splitlines fd) := hid ▸ hinf
          obtain ⟨l, hl, hpl'⟩ := exists_line_of_infix p (splitlines fd) hp1 hp0 hinf'
          have hmem' := List.mem_map_of_mem
            (fun line => if p <:+: line then strip d else line) hl
          have hmem2 : (if p <:+: l then strip d else l) ∈
              (splitlines fd).map
                (fun line => if p <:+: line then strip d else line) := hmem'
          rw [if_pos hpl'] at hmem2
          exact hmem2
    · rw [add_udev_rule_append d p fd hp0 hinf]
      have hfd' : fd ++ (strip d ++ ['\n']) = joinNl (splitlines fd ++ [strip d]) := by
        rw [joinNl_append]
        have : joinNl [strip d] = strip d ++ ['\n'] := by simp [joinNl]
        rw [this, ← hid]
      have happnl : ∀ l ∈ splitlines fd ++ [strip d], '\n' ∉ l := by
        intro l hl
        rcases List.mem_append.mp hl with h | h
        · exact hnl l h
        · simp at h; subst h; exact hl1
      have hsp := splitlines_joinNl _ happnl
      have hzero : (splitlines fd).countP (fun l => decide (p <:+: l)) = 0 := by
        rw [List.countP_eq_zero]
        intro l hl hdec
        have hpl' : p <:+: l := by simpa using hdec
        have : p <:+: fd := hpl'.trans (hid ▸ infix_joinNl_of_mem l _ hl)
        exact hinf this
      refine ⟨?_, ?_, ?_⟩
      · rw [countMatch, hfd', hsp, List.countP_append, hzero]
        simp [hpl]
      · rw [hfd', hsp]
      · rw [hfd', hsp]; simp

/-! ### Claims about the reconciler -/

/-- C1 (counterexample): the claim fails as universally stated.  With a
pattern unrelated to the line (`abc` vs `xyz`) and a missing file, both
calls return changed=true and the final file contains no line matching
the pattern; and on an already-converged file the first call returns
changed=false, not true. -/
theorem claim_C1_counterexample :
    ((add_udev_rule cexLine none (some cexPat)).changed = true ∧
     (add_udev_rule cexLine
        (some (add_udev_rule cexLine none (some cexPat)).file)
        (some cexPat)).changed = true ∧
     countMatch cexPat
        (add_udev_rule cexLine
          (some (add_udev_rule cexLine none (some cexPat)).file)
          (some cexPat)).file = 0) ∧
    (add_udev_rule wLine (some wFd) (some wPat)).changed = false := by
  decide

/-- C1 (amended): for a nonempty single-line rule line, a nonempty
newline-free pattern occurring in the stripped line but not in the header
comment, and a newline-terminated prior file state with at most one line
matching the pattern and not already converged (pattern present with the
identical line verbatim), upserting twice yields: changed=true then
changed=false with the file unchanged by the second call, and the file
contains exactly one line matching the pattern. -/
theorem claim_C1_upsert_idempotent (d p : Str) (file : Option Str)
    (hl1 : '\n' ∉ strip d)
    (hp0 : p ≠ []) (hp1 : '\n' ∉ p) (hpl : p <:+: strip d)
    (hph : ¬ p <:+: headerLine)
    (hfile : ∀ fd, file = some fd →
      fd = joinNl (splitlines fd) ∧ countMatch p fd ≤ 1 ∧
        ¬ (p <:+: fd ∧ strip d ∈ splitlines fd)) :
    (add_udev_rule d file (some p)).changed = true ∧
    add_udev_rule d (some (add_udev_rule d file (some p)).file) (some p) =
      ⟨(add_udev_rule d file (some p)).file, false⟩ ∧
    countMatch p (add_udev_rule d file (some p)).file = 1 := by
  have hnorm := add_udev_rule_normalized d p file hl1 hp0 hp1 hpl hph
    (fun fd h => ⟨(hfile fd h).1, (hfile fd h).2.1⟩)
  refine ⟨?_, ?_, hnorm.1⟩
  · cases file with
    | none => rw [add_udev_rule_create]
    | some fd =>
      have hnc := (hfile fd rfl).2.2
      by_cases hinf : p <:+: fd
      · have hconv : strip d ∉ splitlines fd := fun hc => hnc ⟨hinf, hc⟩
        rw [add_udev_rule_replace d p fd hp0 hinf hconv]
      · rw [add_udev_rule_append d p fd hp0 hinf]
  · have hmem := hnorm.2.2
    have hline : strip d <:+: (add_udev_rule d file (some p)).file :=
      hnorm.2.1 ▸ infix_joinNl_of_mem _ _ hmem
    exact add_udev_rule_converged d p _ hp0 (hpl.trans hline) hmem

/-- Witness for amended C1 at a concrete input (missing file, pattern
occurring in the line). -/
theorem claim_C1_upsert_idempotent_witness :
    (add_udev_rule wLine none (some wPat)).changed = true ∧
    add_udev_rule wLine (some (add_udev_rule wLine none (some wPat)).file)
        (some wPat) =
      ⟨(add_udev_rule wLine none (some wPat)).file, false⟩ ∧
    countMatch wPat (add_udev_rule wLine none (some wPat)).file = 1 :=
  claim_C1_upsert_idempotent wLine wPat none (by decide) (by decide) (by decide)
    (by decide) (by decide) (fun fd h => by simp at h)

/-- C5 (counterexample): on a prior file with two distinct lines matching
the pattern, `add_udev_rule` rewrites both to the new line and the
resulting file still has two lines matching the pattern, not one. -/
theorem claim_C5_counterexample :
    (add_udev_rule dupLine (some dupFd) (some dupPat)).changed = true ∧
    countMatch dupPat
      (add_udev_rule dupLine (some dupFd) (some dupPat)).file = 2 := by
  decide

/-- C5 (amended): after `add_udev_rule` the file has exactly one line
matching the replace-pattern, provided the pattern is nonempty,
newline-free, occurs in the stripped single-line data but not in the
header, and the prior file (when present) is newline-terminated with at
most one line matching the pattern. -/
theorem claim_C5_exactly_one_match (d p : Str) (file : Option Str)
    (hl1 : '\n' ∉ strip d)
    (hp0 : p ≠ []) (hp1 : '\n' ∉ p) (hpl : p <:+: strip d)
    (hph : ¬ p <:+: headerLine)
    (hfile : ∀ fd, file = some fd →
      fd = joinNl (splitlines fd) ∧ countMatch p fd ≤ 1) :
    countMatch p (add_udev_rule d file (some p)).file = 1 :=
  (add_udev_rule_normalized d p file hl1 hp0 hp1 hpl hph hfile).1

/-- Witness for amended C5: replacing the single matching line of an
existing file leaves exactly one matching line. -/
theorem claim_C5_exactly_one_match_witness :
    countMatch wPat (add_udev_rule wLine (some wFd) (some wPat)).file = 1 :=
  claim_C5_exactly_one_match wLine wPat (some wFd) (by decide) (by decide)
    (by decide) (by decide) (by decide)
    (fun fd h => by
      rw [Option.some_inj] at h
      subst h
      exact ⟨by decide, by decide⟩)

/-- C9: convergence detection fails for multi-line rule data.  When the
stripped `udev_data` spans two or more lines (as the vDPA representor
path produces with two or more recorded VFs) and every one of those
lines is already present verbatim in the existing file, the call still
takes the rewrite/append path and returns changed=true: the
already-converged check compares the entire multi-line string against
single file lines, and no file line contains a newline. -/
theorem claim_C9_multiline_no_convergence (d fd : Str)
    (hml : 2 ≤ (splitlines (strip d)).length)
    (_hpresent : ∀ l ∈ splitlines (strip d), l ∈ splitlines fd) :
    (add_udev_rule d (some fd) none).changed = true := by
  have hnl : '\n' ∈ strip d := by
    by_contra hno
    rcases splitlines_of_no_newline (strip d) hno with h | h <;>
      rw [h] at hml <;> simp at hml
  have hnot : strip d ∉ splitlines fd := fun hmem =>
    splitlines_no_newline fd _ hmem hnl
  unfold add_udev_rule
  by_cases hinf : strip d <:+: fd
  · simp [hinf, hnot]
  · simp [hinf]

/-- Witness for C9: data `a1\na2` with both lines already in the file
still returns changed=true. -/
theorem claim_C9_multiline_no_convergence_witness :
    (add_udev_rule mlData (some mlFd) none).changed = true :=
  claim_C9_multiline_no_convergence mlData mlFd (by decide) (by decide)

/-! ### Orchestrator lemmas -/

/-- `isTrackedTrue` on a legacy rule-call result. -/
theorem isTrackedTrue_legacy (b : Option Bool) :
    isTrackedTrue (.ruleCall .legacy b) = false := by
  rcases b with _ | b
  · rfl
  · cases b <;> rfl

/-- `isTrackedTrue` on an unmanage rule-call result. -/
theorem isTrackedTrue_unmanage (b : Option Bool) :
    isTrackedTrue (.ruleCall .unmanage b) = false := by
  rcases b with _ | b
  · rfl
  · cases b <;> rfl

/-- `isTrackedTrue` on a PF-name rule-call result. -/
theorem isTrackedTrue_pfName (b : Bool) :
    isTrackedTrue (.ruleCall .pfName (some b)) = b := by
  cases b <;> rfl

/-- `isTrackedTrue` on a VF-representor rule-call result. -/
theorem isTrackedTrue_vfRep (b : Option Bool) :
    isTrackedTrue (.ruleCall .vfRep b) = (match b with | some x => x | none => false) := by
  rcases b with _ | b
  · rfl
  · cases b <;> rfl

/-- `isTrackedTrue` on a vDPA-representor rule-call result. -/
theorem isTrackedTrue_vdpaRep (b : Bool) :
    isTrackedTrue (.ruleCall .vdpaRep (some b)) = b := by
  cases b <;> rfl

/-- `isTrackedTrue` on the remaining effect constructors. -/
theorem isTrackedTrue_pfUp (n : Str) : isTrackedTrue (.pfUp n) = false := rfl

/-- `isTrackedTrue` is false on switchdev effects. -/
theorem isTrackedTrue_switchdev (n : Str) : isTrackedTrue (.switchdev n) = false := rfl

/-- `isTrackedTrue` is false on VF-count writes. -/
theorem isTrackedTrue_numvfsWrite (n : Str) : isTrackedTrue (.numvfsWrite n) = false := rfl

/-- `isTrackedTrue` is false on flow-steering effects. -/
theorem isTrackedTrue_flowSteering (n : Str) : isTrackedTrue (.flowSteering n) = false := rfl

/-- `isTrackedTrue` is false on interface-up effects. -/
theorem isTrackedTrue_ifUp (n : Str) : isTrackedTrue (.ifUp n) = false := rfl

/-- `isTrackedTrue` is false on restorecon. -/
theorem isTrackedTrue_restorecon : isTrackedTrue .restorecon = false := rfl

/-- Every per-VF effect is a driver unbind or a vDPA device creation. -/
theorem perVfEffects_shape (vd : List Str) (vdpa : Bool) (pcis : List Str) :
    ∀ x ∈ perVfEffects vd vdpa pcis,
      ∃ pci, x = Effect.unbind pci ∨ x = Effect.vdpaAdd pci := by
  intro x hx
  obtain ⟨pci, _, hf⟩ := List.mem_filterMap.mp hx
  refine ⟨pci, ?_⟩
  by_cases hv : vdpa
  · simp [hv] at hf
    right; exact hf.2.symm
  · simp [hv] at hf
    left; exact hf.symm

/-- No per-VF effect is tracked by the trigger accumulator. -/
theorem perVfEffects_any_false (vd : List Str) (vdpa : Bool) (pcis : List Str) :
    (perVfEffects vd vdpa pcis).any isTrackedTrue = false := by
  rw [List.any_eq_false]
  intro x hx
  obtain ⟨pci, h | h⟩ := perVfEffects_shape vd vdpa pcis x hx <;> subst h <;> simp [isTrackedTrue]

/-- The trigger command effect never occurs among per-VF effects. -/
theorem trigger_not_mem_perVfEffects (vd : List Str) (vdpa : Bool) (pcis : List Str) :
    Effect.trigger ∉ perVfEffects vd vdpa pcis := by
  intro hx
  obtain ⟨pci, h | h⟩ := perVfEffects_shape vd vdpa pcis _ hx <;> simp at h

/-- No VF-count write occurs among per-VF effects. -/
theorem numvfsWrite_not_mem_perVfEffects (vd : List Str) (vdpa : Bool)
    (pcis : List Str) (X : Str) :
    Effect.numvfsWrite X ∉ perVfEffects vd vdpa pcis := by
  intro hx
  obtain ⟨pci, h | h⟩ := perVfEffects_shape vd vdpa pcis _ hx <;> simp at h

/-- The switchdev block's final trigger flag is the OR of the incoming
flag with the tracked rule-call results it emits. -/
theorem svBlock_trig (vd : List Str) (cli : Bool) (it : PFItem) (e : ItemEnv)
    (st2 : RunSt) :
    (svBlock vd cli it e st2).2.trig =
      (st2.trig || (svBlock vd cli it e st2).1.any isTrackedTrue) := by
  unfold svBlock
  by_cases hv : it.vdpa <;> by_cases hm : e.vfRepMatchFails <;> by_cases hc : cli <;>
    simp [hv, hm, hc, List.any_append, isTrackedTrue_unmanage, isTrackedTrue_pfName,
      isTrackedTrue_vfRep, isTrackedTrue_vdpaRep, perVfEffects_any_false,
      isTrackedTrue_flowSteering, isTrackedTrue_switchdev, isTrackedTrue_ifUp,
      isTrackedTrue_restorecon, Bool.or_comm, Bool.or_assoc, Bool.or_left_comm]

/-- The switchdev block never emits the trigger command itself. -/
theorem svBlock_no_trigger (vd : List Str) (cli : Bool) (it : PFItem)
    (e : ItemEnv) (st2 : RunSt) :
    Effect.trigger ∉ (svBlock vd cli it e st2).1 := by
  unfold svBlock
  by_cases hv : it.vdpa <;> by_cases hm : e.vfRepMatchFails <;> by_cases hc : cli <;>
    simp [hv, hm, hc, List.mem_append, trigger_not_mem_perVfEffects]

/-- The switchdev block never emits a VF-count write. -/
theorem svBlock_no_write (vd : List Str) (cli : Bool) (it : PFItem)
    (e : ItemEnv) (st2 : RunSt) (X : Str) :
    Effect.numvfsWrite X ∉ (svBlock vd cli it e st2).1 := by
  unfold svBlock
  by_cases hv : it.vdpa <;> by_cases hm : e.vfRepMatchFails <;> by_cases hc : cli <;>
    simp [hv, hm, hc, List.mem_append, numvfsWrite_not_mem_perVfEffects]

/-- No effect of the PF-loop prefix is tracked by the trigger
accumulator (in particular the dropped legacy rule-call result). -/
theorem preSeg_any (smap : List PFItem) (it : PFItem) (e : ItemEnv) (st : RunSt) :
    (preSeg smap it e st).any isTrackedTrue = false := by
  unfold preSeg
  split_ifs <;>
    simp [List.any_append, isTrackedTrue_pfUp, isTrackedTrue_legacy,
      isTrackedTrue_switchdev, isTrackedTrue_numvfsWrite]

/-- The PF-loop prefix never emits the trigger command. -/
theorem preSeg_no_trigger (smap : List PFItem) (it : PFItem) (e : ItemEnv)
    (st : RunSt) :
    Effect.trigger ∉ preSeg smap it e st := by
  unfold preSeg
  split_ifs <;> simp

/-- The loop-body prefix does not change the trigger flag. -/
theorem preSt_trig (smap : List PFItem) (it : PFItem) (e : ItemEnv) (st : RunSt) :
    (preSt smap it e st).trig = st.trig := by
  unfold preSt
  split_ifs <;> rfl

/-- A VF-count write in the loop-body prefix names this item's PF. -/
theorem preSeg_write_name (smap : List PFItem) (it : PFItem) (e : ItemEnv)
    (st : RunSt) (X : Str)
    (h : Effect.numvfsWrite X ∈ preSeg smap it e st) : X = it.name := by
  unfold preSeg at h
  split_ifs at h <;> simp_all

/-- For a vDPA Mellanox item, any VF-count write in the loop-body prefix
is preceded there by the switchdev mode change for the same PF. -/
theorem preSeg_order (smap : List PFItem) (it : PFItem) (e : ItemEnv)
    (st : RunSt) (hv : it.vdpa = true) (hm : e.isMlnx = true)
    (hw : Effect.numvfsWrite it.name ∈ preSeg smap it e st) :
    List.Sublist [Effect.switchdev it.name, Effect.numvfsWrite it.name] (preSeg smap it e st) := by
  unfold preSeg at hw ⊢
  rw [if_pos (show it.vdpa = true ∧ e.isMlnx = true from ⟨hv, hm⟩)] at hw ⊢
  by_cases hwr : (set_numvfs e.nv (.int it.numvfs)).wrote = true
  · rw [if_pos hwr] at hw ⊢
    rw [List.append_assoc]
    refine List.Sublist.trans ?_ (List.sublist_append_right _ _)
    show List.Sublist [Effect.switchdev it.name, Effect.numvfsWrite it.name]
      ([Effect.switchdev it.name] ++ [Effect.numvfsWrite it.name])
    exact List.Sublist.refl _
  · rw [if_neg hwr] at hw
    split_ifs at hw <;> simp_all

/-- Trigger-flag tracking through one PF-loop iteration: on success, the
new flag is the old one OR-ed with the tracked rule-call results the
iteration emitted. -/
theorem processItem_trig (smap : List PFItem) (vd : List Str) (cli : Bool)
    (it : PFItem) (e : ItemEnv) (st : RunSt) (seg : List Effect) (st' : RunSt)
    (hp : processItem smap vd cli it e st = (seg, .ok st')) :
    st'.trig = (st.trig || seg.any isTrackedTrue) := by
  unfold processItem at hp
  split at hp
  · injection hp with h1 h2
    injection h2 with h3
    subst h1; subst h3
    simp
  · split at hp
    · exact absurd hp (by simp)
    · split at hp
      · injection hp with h1 h2
        injection h2 with h3
        subst h1; subst h3
        simp
      · split at hp
        · exact absurd hp (by simp)
        · split at hp
          · injection hp with h1 h2
            injection h2 with h3
            subst h1; subst h3
            rw [svBlock_trig, preSt_trig]
            simp [List.any_append, preSeg_any]
          · injection hp with h1 h2
            injection h2 with h3
            subst h1; subst h3
            rw [preSt_trig]
            simp [preSeg_any]

/-- One PF-loop iteration never emits the trigger command. -/
theorem processItem_no_trigger (smap : List PFItem) (vd : List Str) (cli : Bool)
    (it : PFItem) (e : ItemEnv) (st : RunSt) :
    Effect.trigger ∉ (processItem smap vd cli it e st).1 := by
  unfold processItem
  split
  · simp
  · split
    · simp
    · split
      · simp
      · split
        · simpa using preSeg_no_trigger smap it e st
        · split
          · intro h
            rcases List.mem_append.mp (by simpa using h) with h1 | h2
            · exact preSeg_no_trigger smap it e st h1
            · exact svBlock_no_trigger vd cli it e (preSt smap it e st) h2
          · simpa using preSeg_no_trigger smap it e st

/-- Ordering through one PF-loop iteration: if every pf item named `X`
is vDPA on Mellanox, a VF-count write for `X` in the iteration's effects
is preceded by the switchdev change for `X`. -/
theorem processItem_order (smap : List PFItem) (vd : List Str) (cli : Bool)
    (it : PFItem) (e : ItemEnv) (st : RunSt) (X : Str) (seg : List Effect)
    (r : Except NumvfsErr RunSt)
    (hp : processItem smap vd cli it e st = (seg, r))
    (hvm : it.device_type = DevType.pf → it.name = X →
      it.vdpa = true ∧ e.isMlnx = true)
    (hw : Effect.numvfsWrite X ∈ seg) :
    List.Sublist [Effect.switchdev X, Effect.numvfsWrite X] seg := by
  unfold processItem at hp
  by_cases hpf : it.device_type = DevType.pf
  · rw [if_neg (by simp [hpf])] at hp
    have hpre : Effect.numvfsWrite X ∈ preSeg smap it e st →
        List.Sublist [Effect.switchdev X, Effect.numvfsWrite X] (preSeg smap it e st) := by
      intro hmem
      have hXname := preSeg_write_name smap it e st X hmem
      obtain ⟨hv, hm⟩ := hvm hpf hXname.symm
      subst hXname
      exact preSeg_order smap it e st hv hm hmem
    cases hsr : e.statusRead with
    | none =>
      rw [hsr] at hp
      injection hp with h1 h2
      subst h1
      simp at hw
    | some cur =>
      rw [hsr] at hp
      simp only at hp
      split at hp
      · injection hp with h1 h2
        subst h1
        simp at hw
      · split at hp
        · injection hp with h1 h2
          subst h1
          exact hpre hw
        · split at hp
          · injection hp with h1 h2
            subst h1
            rcases List.mem_append.mp hw with h1 | h2
            · exact (hpre h1).trans (List.sublist_append_left _ _)
            · exact absurd h2 (svBlock_no_write vd cli it e (preSt smap it e st) X)
          · injection hp with h1 h2
            subst h1
            exact hpre hw
  · rw [if_pos (by simp [hpf])] at hp
    injection hp with h1 h2
    subst h1
    simp at hw

/-- `isTrackedTrue` is false on the bind step. -/
theorem isTrackedTrue_bindVfs : isTrackedTrue .bindVfs = false := rfl

/-- `isTrackedTrue` is false on the trigger command. -/
theorem isTrackedTrue_trigger : isTrackedTrue .trigger = false := rfl

/-- `isTrackedTrue` is false on the openvswitch restart. -/
theorem isTrackedTrue_ovsRestart : isTrackedTrue .ovsRestart = false := rfl

/-- Trigger-flag tracking through the whole PF loop. -/
theorem runItems_trig (smap : List PFItem) (env : RunEnv) :
    ∀ (cfg : List (PFItem × ItemEnv)) (st st' : RunSt) (tr : List Effect),
      runItems smap env cfg st = (tr, .ok st') →
      st'.trig = (st.trig || tr.any isTrackedTrue) := by
  intro cfg
  induction cfg with
  | nil =>
    intro st st' tr h
    unfold runItems at h
    injection h with h1 h2
    injection h2 with h3
    subst h1; subst h3
    simp
  | cons p rest ih =>
    intro st st' tr h
    obtain ⟨it, e⟩ := p
    rcases hpi : processItem smap env.vdpaDevices env.cli it e st with ⟨seg, r⟩
    rw [runItems, hpi] at h
    cases r with
    | error er => simp at h
    | ok stm =>
      rcases hrest : runItems smap env rest stm with ⟨tr2, r2⟩
      simp only [hrest] at h
      injection h with h1 h2
      subst h1; subst h2
      have hmid := processItem_trig smap env.vdpaDevices env.cli it e st seg stm hpi
      have htail := ih stm st' tr2 hrest
      rw [htail, hmid, List.any_append, Bool.or_assoc]

/-- The PF loop never emits the trigger command. -/
theorem runItems_no_trigger (smap : List PFItem) (env : RunEnv) :
    ∀ (cfg : List (PFItem × ItemEnv)) (st : RunSt) (tr : List Effect)
      (r : Except NumvfsErr RunSt),
      runItems smap env cfg st = (tr, r) → Effect.trigger ∉ tr := by
  intro cfg
  induction cfg with
  | nil =>
    intro st tr r h
    unfold runItems at h
    injection h with h1 h2
    subst h1
    simp
  | cons p rest ih =>
    intro st tr r h
    obtain ⟨it, e⟩ := p
    rcases hpi : processItem smap env.vdpaDevices env.cli it e st with ⟨seg, rr⟩
    rw [runItems, hpi] at h
    have hseg : Effect.trigger ∉ seg := by
      have := processItem_no_trigger smap env.vdpaDevices env.cli it e st
      rw [hpi] at this
      exact this
    cases rr with
    | error er =>
      injection h with h1 h2
      subst h1
      exact hseg
    | ok stm =>
      rcases hrest : runItems smap env rest stm with ⟨tr2, r2⟩
      simp only [hrest] at h
      injection h with h1 h2
      subst h1
      intro hmem
      rcases List.mem_append.mp hmem with hm | hm
      · exact hseg hm
      · exact ih stm tr2 r2 hrest hm

/-- Ordering through the whole PF loop: under the per-item vDPA/Mellanox
hypothesis for PFs named `X`, a VF-count write for `X` is preceded in the
loop trace by the switchdev change for `X`. -/
theorem runItems_order (smap : List PFItem) (env : RunEnv) (X : Str) :
    ∀ (cfg : List (PFItem × ItemEnv)) (st : RunSt) (tr : List Effect)
      (r : Except NumvfsErr RunSt),
      runItems smap env cfg st = (tr, r) →
      (∀ p ∈ cfg, p.1.device_type = DevType.pf → p.1.name = X →
        p.1.vdpa = true ∧ p.2.isMlnx = true) →
      Effect.numvfsWrite X ∈ tr →
      List.Sublist [Effect.switchdev X, Effect.numvfsWrite X] tr := by
  intro cfg
  induction cfg with
  | nil =>
    intro st tr r h hvm hw
    unfold runItems at h
    injection h with h1 h2
    subst h1
    simp at hw
  | cons p rest ih =>
    intro st tr r h hvm hw
    obtain ⟨it, e⟩ := p
    rcases hpi : processItem smap env.vdpaDevices env.cli it e st with ⟨seg, rr⟩
    rw [runItems, hpi] at h
    have hitem : Effect.numvfsWrite X ∈ seg →
        List.Sublist [Effect.switchdev X, Effect.numvfsWrite X] seg :=
      fun hm => processItem_order smap env.vdpaDevices env.cli it e st X seg rr hpi
        (hvm (it, e) (List.mem_cons_self _ _)) hm
    cases rr with
    | error er =>
      injection h with h1 h2
      subst h1
      exact hitem hw
    | ok stm =>
      rcases hrest : runItems smap env rest stm with ⟨tr2, r2⟩
      simp only [hrest] at h
      injection h with h1 h2
      subst h1
      rcases List.mem_append.mp hw with hm | hm
      · exact (hitem hm).trans (List.sublist_append_left _ _)
      · exact (ih stm tr2 r2 hrest
          (fun q hq => hvm q (List.mem_cons_of_mem _ hq)) hm).trans
          (List.sublist_append_right _ _)

/-- The after-loop effects contain exactly one trigger command iff the
accumulated flag is set. -/
theorem postSeg_count (env : RunEnv) (st : RunSt) :
    (postSeg env st).count Effect.trigger = if st.trig then 1 else 0 := by
  unfold postSeg
  split_ifs <;> simp_all [List.count_append]

/-- The after-loop effects contain no rule-call results. -/
theorem postSeg_any (env : RunEnv) (st : RunSt) :
    (postSeg env st).any isTrackedTrue = false := by
  unfold postSeg
  split_ifs <;>
    simp [List.any_append, isTrackedTrue_bindVfs, isTrackedTrue_trigger,
      isTrackedTrue_ovsRestart]

/-- The after-loop effects contain no VF-count write. -/
theorem postSeg_no_write (env : RunEnv) (st : RunSt) (X : Str) :
    Effect.numvfsWrite X ∉ postSeg env st := by
  unfold postSeg
  split_ifs <;> simp

/-! ### Claims about the orchestrator -/

set_option maxRecDepth 8000 in
/-- C4 (counterexample): a completed run over a single legacy-mode PF in
which the legacy udev-rule reconciliation returns changed=true (the rule
file did not exist) emits NO trigger command: the legacy call's return
value is dropped by the orchestrator, so "any reconciliation call
returned changed=true" does not imply a trigger. -/
theorem claim_C4_counterexample :
    (configure_sriov_pf plainRunEnv [(legacyItem, legacyItemEnv)]).1 =
      [Effect.pfUp legacyItem.name,
       Effect.ruleCall .legacy (some true),
       Effect.numvfsWrite legacyItem.name] ∧
    (configure_sriov_pf plainRunEnv [(legacyItem, legacyItemEnv)]).1.count
        Effect.trigger = 0 ∧
    (configure_sriov_pf plainRunEnv [(legacyItem, legacyItemEnv)]).2.toOption =
      some ⟨none, some ((add_udev_rule legacyItemEnv.legacyLine none
        (some legacyItemEnv.legacyPat)).file), false, [], some false⟩ := by
  refine ⟨by decide, by decide, ?_⟩
  decide

/-- C4 (amended): over a completed run, `configure_sriov_pf` invokes the
udev trigger command exactly once if any of the PF-name, VF-representor
or vDPA-representor reconciliation calls returned changed=true, and never
otherwise; the returns of the legacy-PF and NM-unmanage reconciliation
calls are dropped and do not cause a trigger. -/
theorem claim_C4_trigger_iff_tracked (env : RunEnv)
    (cfg : List (PFItem × ItemEnv)) (st : RunSt)
    (hok : (configure_sriov_pf env cfg).2 = .ok st) :
    (configure_sriov_pf env cfg).1.count Effect.trigger =
      (if (configure_sriov_pf env cfg).1.any isTrackedTrue then 1 else 0) := by
  unfold configure_sriov_pf at hok ⊢
  rcases hri : runItems (cfg.map Prod.fst) env cfg
      ⟨env.rulesFile0, env.legacyFile0, false, [], none⟩ with ⟨tr, r⟩
  cases r with
  | error er =>
    simp only [hri] at hok
    exact absurd hok (by simp)
  | ok stf =>
    simp only [hri] at hok ⊢
    have htrig := runItems_trig (cfg.map Prod.fst) env cfg _ stf tr hri
    have hnt := runItems_no_trigger (cfg.map Prod.fst) env cfg _ tr (.ok stf) hri
    rw [List.count_append, List.count_eq_zero.mpr hnt, postSeg_count]
    rw [List.any_append, postSeg_any, Bool.or_false]
    simp only [Bool.false_or] at htrig
    rw [htrig]
    simp

set_option maxRecDepth 8000 in
/-- Witness for amended C4: a switchdev Mellanox PF whose PF-name rule is
freshly written triggers exactly once; the legacy-only run triggers zero
times with no tracked result. -/
theorem claim_C4_trigger_iff_tracked_witness :
    (configure_sriov_pf plainRunEnv [(svItem, svItemEnv)]).1.count
        Effect.trigger = 1 := by
  have h := claim_C4_trigger_iff_tracked plainRunEnv [(svItem, svItemEnv)]
    ((configure_sriov_pf plainRunEnv [(svItem, svItemEnv)]).2.toOption.getD
      ⟨none, none, false, [], none⟩) (by rfl)
  rw [h]
  decide

/-- C7: for every PF descriptor with vdpa=true on a Mellanox NIC, the
eswitch switchdev mode change precedes the VF-count write in the run's
effect sequence: whenever the trace contains a `sriov_numvfs` write for
such a PF, the sub-sequence [switchdev, write] for that PF occurs in
order. -/
theorem claim_C7_switchdev_before_write (env : RunEnv)
    (cfg : List (PFItem × ItemEnv)) (X : Str)
    (hvm : ∀ p ∈ cfg, p.1.device_type = DevType.pf → p.1.name = X →
      p.1.vdpa = true ∧ p.2.isMlnx = true)
    (hw : Effect.numvfsWrite X ∈ (configure_sriov_pf env cfg).1) :
    List.Sublist [Effect.switchdev X, Effect.numvfsWrite X]
      ((configure_sriov_pf env cfg).1) := by
  unfold configure_sriov_pf at hw ⊢
  rcases hri : runItems (cfg.map Prod.fst) env cfg
      ⟨env.rulesFile0, env.legacyFile0, false, [], none⟩ with ⟨tr, r⟩
  cases r with
  | error er =>
    simp only [hri] at hw ⊢
    exact runItems_order (cfg.map Prod.fst) env X cfg _ tr _ hri hvm hw
  | ok stf =>
    simp only [hri] at hw ⊢
    rcases List.mem_append.mp hw with hm | hm
    · exact (runItems_order (cfg.map Prod.fst) env X cfg _ tr _ hri hvm hm).trans
        (List.sublist_append_left _ _)
    · exact absurd hm (postSeg_no_write env stf X)

set_option maxRecDepth 8000 in
/-- Witness for C7: the vDPA Mellanox run writes the VF count and its
trace contains switchdev before the write. -/
theorem claim_C7_switchdev_before_write_witness :
    List.Sublist
      [Effect.switchdev vdpaItem.name, Effect.numvfsWrite vdpaItem.name]
      ((configure_sriov_pf plainRunEnv [(vdpaItem, vdpaItemEnv)]).1) :=
  claim_C7_switchdev_before_write plainRunEnv [(vdpaItem, vdpaItemEnv)]
    vdpaItem.name
    (by
      intro p hp _ _
      simp only [List.mem_singleton] at hp
      subst hp
      exact ⟨rfl, rfl⟩)
    (by decide)

end OsNetConfig
